import Mathlib

/-!
Verification of the `site_analysis` core against its specification.

Shallow embedding conventions:
* fractional coordinates are rationals (`Vec3`);
* the external pymatgen lattice is modelled as an orthorhombic cell; its
  minimum-image distance functions are embedded exactly (per-axis reduction by
  the nearest integer), working with squared distances so everything stays in
  `ℚ` — every comparison in the source compares a distance against a threshold,
  which squares faithfully;
* fallible Python code is embedded in the `Except PyErr` monad;
* `site_collection.py` and `polyhedral_site.py` are not under `src/`; the
  definitions taken from the spec instead of those files carry a doc comment
  starting with "Modelled from the spec:".
-/

namespace SiteAnalysis

/-- Three-component fractional-coordinate vector (numpy `(3,)` arrays in the source). -/
structure Vec3 where
  x : ℚ
  y : ℚ
  z : ℚ
  deriving DecidableEq, Repr

instance : Inhabited Vec3 := ⟨⟨0, 0, 0⟩⟩

/-- Modelled external collaborator (pymatgen `Lattice`), restricted to an
orthorhombic cell with edge lengths `a`, `b`, `c`.  Only its periodic
minimum-image distance functions are consumed by the core. -/
structure Lattice where
  a : ℚ
  b : ℚ
  c : ℚ
  deriving DecidableEq, Repr

/-- Squared length of the minimum-image displacement along one axis of length
`len`: the fractional displacement `d` is reduced by its nearest integer, which
realises the minimum over all periodic images of this axis. -/
def minImageSq (len d : ℚ) : ℚ := (len * (d - (round d : ℚ))) ^ 2

/-- Models `lattice.get_distance_and_image(p, q)[0]`, squared: the periodic
minimum-image cartesian distance between fractional coordinates `p` and `q`. -/
def Lattice.getDistanceSq (lat : Lattice) (p q : Vec3) : ℚ :=
  minImageSq lat.a (q.x - p.x) + minImageSq lat.b (q.y - p.y) + minImageSq lat.c (q.z - p.z)

/-- Squared cartesian distance between `p` and the periodic image of `q`
translated by the integer lattice vector `n`, in an orthorhombic cell.  Used to
state the minimum-image property against all of `ℤ³`. -/
def imageDistSq (lat : Lattice) (p q : Vec3) (n : ℤ × ℤ × ℤ) : ℚ :=
  (lat.a * (q.x - p.x + (n.1 : ℚ))) ^ 2 + (lat.b * (q.y - p.y + (n.2.1 : ℚ))) ^ 2 +
    (lat.c * (q.z - p.z + (n.2.2 : ℚ))) ^ 2

/-- Python exceptions the embedded code can raise. -/
inductive PyErr where
  | stopIteration
  | attributeError (msg : String)
  | valueError (msg : String)
  | typeError (msg : String)
  | unboundLocalError
  | indexError
  deriving DecidableEq, Repr

/-- Message of the `ValueError` numpy raises when a multi-element array is used
in a boolean context. -/
def truthMsg : String :=
  "The truth value of an array with more than one element is ambiguous. Use a.any() or a.all()"

/-- Message of the `AttributeError` raised by the `Atom.frac_coords` property. -/
def coordsUnsetMsg : String := "Coordinates not set for atom"

/-- Message of the `TypeError` used for containment tests whose implementation
is not under src/. -/
def noContainsMsg : String := "contains_point only modelled for spherical sites"

/-- Message marking the polyhedral analyse path, whose containment test lives in
polyhedral_site.py (not under src/). -/
def polyNotModelledMsg : String := "polyhedral containment not modelled"

/-- Geometric variant data of a site.  The spec (§9) maps the abstract `Site`
class with its three subclasses to exactly this closed tagged variant. -/
inductive SiteGeometry where
  | spherical (frac_coords : Vec3) (rcut : ℚ)
  | voronoi (frac_coords : Vec3)
  | polyhedral (vertex_indices : List ℕ)
  deriving DecidableEq, Repr

instance : Inhabited SiteGeometry := ⟨.voronoi default⟩

/-- State of a `Site` (site.py): index, label, per-frame occupants, occupant
history, points, transition counter (modelled as an association list mapping
destination site index to count), plus the geometric variant data. -/
structure Site where
  index : ℕ
  label : Option String
  contains_atoms : List ℕ
  trajectory : List (List ℕ)
  points : List Vec3
  transitions : List (ℕ × ℕ)
  geom : SiteGeometry
  deriving DecidableEq, Repr

instance : Inhabited Site :=
  ⟨{ index := 0, label := none, contains_atoms := [], trajectory := [], points := [],
     transitions := [], geom := default }⟩

/-- State of an `Atom` (atom.py). -/
structure Atom where
  index : ℕ
  in_site : Option ℕ
  frac_coords : Option Vec3
  trajectory : List (Option ℕ)
  deriving DecidableEq, Repr

instance : Inhabited Atom :=
  ⟨{ index := 0, in_site := none, frac_coords := none, trajectory := [] }⟩

/-- Counter update `c[k] += 1` of a `collections.Counter`, on an association list. -/
def counterIncr : List (ℕ × ℕ) → ℕ → List (ℕ × ℕ)
  | [], k => [(k, 1)]
  | (k1, v) :: rest, k => if k1 = k then (k1, v + 1) :: rest else (k1, v) :: counterIncr rest k

/-- Counter read `c[k]` of a `collections.Counter` (0 when the key is absent). -/
def counterGet : List (ℕ × ℕ) → ℕ → ℕ
  | [], _ => 0
  | (k1, v) :: rest, k => if k1 = k then v else counterGet rest k

/-- Models `Atom.reset` (atom.py): clears `in_site`, `_frac_coords` and `trajectory`. -/
def Atom.reset (a : Atom) : Atom :=
  { a with in_site := none, frac_coords := none, trajectory := [] }

/-- Models `Site.reset` (site.py): empties `contains_atoms`, `trajectory` and
`transitions`; every other attribute (in particular `points`) is untouched. -/
def Site.reset (s : Site) : Site :=
  { s with contains_atoms := [], trajectory := [], transitions := [] }

/-- Models a pymatgen `Structure`: one fractional coordinate per structure site,
plus the lattice. -/
structure Structure where
  frac_coords : List Vec3
  lattice : Lattice
  deriving DecidableEq, Repr

/-- Models `Atom.assign_coords`: `self._frac_coords = structure[self.index].frac_coords`. -/
def Atom.assign_coords (a : Atom) (st : Structure) : Except PyErr Atom :=
  match st.frac_coords[a.index]? with
  | none => .error .indexError
  | some v => .ok { a with frac_coords := some v }

/-- Models the `Atom.frac_coords` property: raises `AttributeError` when unset. -/
def Atom.get_frac_coords (a : Atom) : Except PyErr Vec3 :=
  match a.frac_coords with
  | none => .error (.attributeError coordsUnsetMsg)
  | some v => .ok v

/-- Return value of `Atom.as_dict`. -/
structure AtomDict where
  index : ℕ
  in_site : Option ℕ
  frac_coords : Option Vec3
  deriving DecidableEq, Repr

/-- Models `Atom.as_dict` (atom.py): the value stored under the key
`frac_coords` is written `self._frac_coords.tolist() if self._frac_coords else
None`, so the conditional applies the Python truth test to the numpy array
itself; for a set 3-component array that test raises `ValueError` regardless of
the element values, while `None` is simply falsy. -/
def Atom.as_dict (a : Atom) : Except PyErr AtomDict :=
  match a.frac_coords with
  | none => .ok { index := a.index, in_site := a.in_site, frac_coords := none }
  | some _ => .error (.valueError truthMsg)

/-- Models `SphericalSite.contains_point` (spherical_site.py, lines 32-38):
`dr <= rcut` with `dr = lattice.get_distance_and_image(self.frac_coords, x)[0]`.
Since `dr ≥ 0`, the comparison `dr ≤ rcut` is rendered without square roots as
`0 ≤ rcut ∧ dr² ≤ rcut²`. -/
def SphericalSite.contains_point (centre : Vec3) (rcut : ℚ) (x : Vec3) (lat : Lattice) : Bool :=
  decide (0 ≤ rcut ∧ lat.getDistanceSq centre x ≤ rcut ^ 2)

/-- Models `contains_atom` as invoked by the site collections: the atom
`frac_coords` property is read (which can raise) and the geometric containment
test of the variant is applied.  Only the spherical test is implemented under
src/; other variants surface as a `TypeError` here and are never exercised by
the theorems below. -/
def Site.contains_atom (s : Site) (a : Atom) (lat : Lattice) : Except PyErr Bool :=
  match a.get_frac_coords with
  | .error e => .error e
  | .ok xc =>
    match s.geom with
    | .spherical centre rcut => .ok (SphericalSite.contains_point centre rcut xc lat)
    | _ => .error (.typeError noContainsMsg)

/-- The atom's site assignment after the previous processed frame: the last
entry of its per-frame `trajectory` history (`none` when no frame has been
processed yet). -/
def Atom.prevAssignment (a : Atom) : Option ℕ :=
  a.trajectory.getLast?.getD none

/-- Tally one observed transition into the `transitions` counter of the first
site whose `index` equals `prev`, keyed by the destination index `dest`. -/
def tallyTransition : List Site → ℕ → ℕ → List Site
  | [], _, _ => []
  | s :: rest, prev, dest =>
    if s.index = prev then { s with transitions := counterIncr s.transitions dest } :: rest
    else s :: tallyTransition rest prev dest

/-- Append the atom index `ai` to `contains_atoms` of the site at list position `p`. -/
def appendContainsAt : List Site → ℕ → ℕ → List Site
  | [], _, _ => []
  | s :: rest, 0, ai => { s with contains_atoms := s.contains_atoms ++ [ai] } :: rest
  | s :: rest, p + 1, ai => s :: appendContainsAt rest p ai

/-- Modelled from the spec: `SiteCollection.update_occupation`.  The file
site_collection.py is not under src/; available are the module-level
`update_occupation` in trajectory.py (append the atom index to
`site.contains_atoms`, set `atom.in_site`) and spec §4.8: "when an atom's site
assignment changes from site A (or none) to site B (or none) within the frame,
the transition A→B is tallied (only non-degenerate transitions, i.e. where
A ≠ B, are counted)".  Site A is the atom's assignment after the previous frame
(`Atom.prevAssignment`); the tally is recorded on site A under the destination
site's index. -/
def update_occupation (sites : List Site) (p : ℕ) (a : Atom) : List Site × Atom :=
  match sites[p]? with
  | none => (sites, a)
  | some target =>
    let sites1 :=
      match a.prevAssignment with
      | none => sites
      | some prev =>
        if prev = target.index then sites else tallyTransition sites prev target.index
    (appendContainsAt sites1 p a.index, { a with in_site := some target.index })

/-- Modelled from the spec: `SiteCollection.reset_site_occupations`
(site_collection.py is not under src/).  Spec §4.5 step 1: "Clear every site's
`occupants` (but not history/transitions) for the new frame." -/
def reset_site_occupations (sites : List Site) : List Site :=
  sites.map fun s => { s with contains_atoms := [] }

/-- Models `next(s for s in self.sites if s.index == atom.in_site)` together
with the list position of the hit (the `StopIteration` of an exhausted generator
is produced at the call site). -/
def findIndexedSite : List Site → ℕ → ℕ → Option (ℕ × Site)
  | [], _, _ => none
  | s :: rest, idx, p => if s.index = idx then some (p, s) else findIndexedSite rest idx (p + 1)

/-- Models the `for s in self.sites:` scan: position of the first site whose
containment test succeeds for the atom. -/
def scanSites (a : Atom) (lat : Lattice) : List Site → ℕ → Except PyErr (Option ℕ)
  | [], _ => .ok none
  | s :: rest, p =>
    match s.contains_atom a lat with
    | .error e => .error e
    | .ok c => if c then .ok (some p) else scanSites a lat rest (p + 1)

/-- Fallback branch of the per-atom assignment: scan the full site list in
collection order and assign the atom to the first containing site, if any. -/
def scanAndAssign (sites : List Site) (a : Atom) (lat : Lattice) :
    Except PyErr (List Site × Atom) :=
  match scanSites a lat sites 0 with
  | .error e => .error e
  | .ok (some p) => .ok (update_occupation sites p a)
  | .ok none => .ok (sites, a)

/-- Python truth value of an `Optional[int]`: `None` and `0` are falsy.  This is
the `if atom.in_site:` guard of the site collections. -/
def optIntTruthy : Option ℕ → Bool
  | none => false
  | some n => n != 0

/-- Models one iteration of the atom loop in
`SphericalSiteCollection.assign_site_occupations` (spherical_site_collection.py
lines 20-32; polyhedral_site_collection.py lines 49-61 has the same shape).
The guard is the Python truth test `if atom.in_site:`. -/
def assignOneAtom (sites : List Site) (a : Atom) (lat : Lattice) :
    Except PyErr (List Site × Atom) :=
  if optIntTruthy a.in_site then
    match findIndexedSite sites (a.in_site.getD 0) 0 with
    | none => .error .stopIteration
    | some (p, previous_site) =>
      match previous_site.contains_atom a lat with
      | .error e => .error e
      | .ok true => .ok (update_occupation sites p a)
      | .ok false => scanAndAssign sites { a with in_site := none } lat
  else scanAndAssign sites a lat

/-- The atom loop, threading the mutated site list through the per-atom steps. -/
def assignAtomsLoop (lat : Lattice) : List Site → List Atom → Except PyErr (List Site × List Atom)
  | sites, [] => .ok (sites, [])
  | sites, a :: rest =>
    match assignOneAtom sites a lat with
    | .error e => .error e
    | .ok (sites1, a1) =>
      match assignAtomsLoop lat sites1 rest with
      | .error e => .error e
      | .ok (sites2, rest1) => .ok (sites2, a1 :: rest1)

/-- Models `SphericalSiteCollection.assign_site_occupations`
(spherical_site_collection.py, lines 16-32). -/
def SphericalSiteCollection.assign_site_occupations (sites : List Site) (atoms : List Atom)
    (st : Structure) : Except PyErr (List Site × List Atom) :=
  assignAtomsLoop st.lattice (reset_site_occupations sites) atoms

/-- Models `for a in atoms: a.assign_coords(structure)`. -/
def assignCoordsAll (st : Structure) : List Atom → Except PyErr (List Atom)
  | [] => .ok []
  | a :: rest =>
    match a.assign_coords st with
    | .error e => .error e
    | .ok a1 =>
      match assignCoordsAll st rest with
      | .error e => .error e
      | .ok rest1 => .ok (a1 :: rest1)

/-- Models `SphericalSiteCollection.analyse_structure`. -/
def SphericalSiteCollection.analyse_structure (sites : List Site) (atoms : List Atom)
    (st : Structure) : Except PyErr (List Site × List Atom) :=
  match assignCoordsAll st atoms with
  | .error e => .error e
  | .ok atoms1 => SphericalSiteCollection.assign_site_occupations sites atoms1 st

/-- Models `np.argmin` over a nonempty tail, tracking the current best position
and value; `np.argmin` returns the first position attaining the minimum. -/
def argminFrom : List ℚ → ℕ → ℕ → ℚ → ℕ
  | [], _, best, _ => best
  | v :: rest, p, best, bestv =>
    if v < bestv then argminFrom rest (p + 1) p v else argminFrom rest (p + 1) best bestv

/-- Models `np.argmin` over a list (0 on the empty list, which the source never
hits on the inputs considered here). -/
def argmin : List ℚ → ℕ
  | [] => 0
  | v :: rest => argminFrom rest 1 0 v

/-- Reads the `frac_coords` property of every tracked atom (raising when unset). -/
def getAtomCoords : List Atom → Except PyErr (List Vec3)
  | [] => .ok []
  | a :: rest =>
    match a.get_frac_coords with
    | .error e => .error e
    | .ok xc =>
      match getAtomCoords rest with
      | .error e => .error e
      | .ok xs => .ok (xc :: xs)

/-- Models the `for atom, site_list_index in zip(atoms, site_list_indices)` loop
of the Voronoi collection; `self.sites[site_list_index]` raises `IndexError`
when the row index exceeds the collection. -/
def vorAssignLoop : List Site → List (Atom × ℕ) → Except PyErr (List Site × List Atom)
  | sites, [] => .ok (sites, [])
  | sites, (a, p) :: rest =>
    match sites[p]? with
    | none => .error .indexError
    | some _ =>
      match vorAssignLoop (update_occupation sites p a).1 rest with
      | .error e => .error e
      | .ok (sites2, rest1) => .ok (sites2, (update_occupation sites p a).2 :: rest1)

/-- Models `VoronoiSiteCollection.assign_site_occupations`
(voronoi_site_collection.py, lines 16-27).  Note that `site_coords` is built
from `structure.sites` — the coordinates of the frame structure itself — not
from the collection's own site centres, and the argmin row index is then used to
index `self.sites`.  Squared distances leave every `np.argmin` unchanged. -/
def VoronoiSiteCollection.assign_site_occupations (sites : List Site) (atoms : List Atom)
    (st : Structure) : Except PyErr (List Site × List Atom) :=
  match getAtomCoords atoms with
  | .error e => .error e
  | .ok atom_coords =>
    let idxs := atom_coords.map fun ac =>
      argmin (st.frac_coords.map fun sc => st.lattice.getDistanceSq sc ac)
    vorAssignLoop (reset_site_occupations sites) (atoms.zip idxs)

/-- Models `VoronoiSiteCollection.analyse_structure`. -/
def VoronoiSiteCollection.analyse_structure (sites : List Site) (atoms : List Atom)
    (st : Structure) : Except PyErr (List Site × List Atom) :=
  match assignCoordsAll st atoms with
  | .error e => .error e
  | .ok atoms1 => VoronoiSiteCollection.assign_site_occupations sites atoms1 st

/-- The three site-collection classes of trajectory.py. -/
inductive CollectionKind where
  | polyhedral
  | voronoi
  | spherical
  deriving DecidableEq, Repr

/-- Whether a site is an instance of the `Site` subclass matching `k`. -/
def siteHasKind (s : Site) (k : CollectionKind) : Bool :=
  match s.geom, k with
  | .polyhedral _, .polyhedral => true
  | .voronoi _, .voronoi => true
  | .spherical _ _, .spherical => true
  | _, _ => false

/-- Models the detection loop of `Trajectory.__init__` (trajectory.py, lines
27-33): `site_collection_types` is iterated in insertion order (polyhedral,
voronoi, spherical), rebinding the local `site_collection_class` on every kind
that matches all sites.  When no kind matches, the local was never assigned and
the subsequent `if not site_collection_class:` test raises `UnboundLocalError`;
the `raise ValueError(...)` statement on the next line is unreachable (a bound
class object is truthy, so the guard also never fires when a kind matched). -/
def detectSiteCollectionClass (sites : List Site) : Except PyErr CollectionKind :=
  let step := fun (acc : Option CollectionKind) (k : CollectionKind) =>
    if sites.all fun s => siteHasKind s k then some k else acc
  match step (step (step none .polyhedral) .voronoi) .spherical with
  | none => .error .unboundLocalError
  | some k => .ok k

/-- State of a `Trajectory` (trajectory.py); `kind` records which site
collection class was detected at construction. -/
structure Trajectory where
  kind : CollectionKind
  sites : List Site
  atoms : List Atom
  timesteps : List (Option ℤ)
  deriving DecidableEq, Repr

/-- Models `Trajectory.__init__` (trajectory.py, lines 27-39); the index lookup
tables are omitted, and for a polyhedral collection the neighbour graph is built
separately by `construct_neighbouring_sites`. -/
def Trajectory.mkNew (sites : List Site) (atoms : List Atom) : Except PyErr Trajectory :=
  match detectSiteCollectionClass sites with
  | .error e => .error e
  | .ok k => .ok { kind := k, sites := sites, atoms := atoms, timesteps := [] }

/-- Dispatch of `self.site_collection.analyse_structure` on the detected kind.
The polyhedral branch is not modelled because the polyhedral containment test
lives in polyhedral_site.py, which is not under src/; no claim is settled
through that branch. -/
def SiteCollection.analyse_structure (kind : CollectionKind) (sites : List Site)
    (atoms : List Atom) (st : Structure) : Except PyErr (List Site × List Atom) :=
  match kind with
  | .spherical => SphericalSiteCollection.analyse_structure sites atoms st
  | .voronoi => VoronoiSiteCollection.analyse_structure sites atoms st
  | .polyhedral => .error (.typeError polyNotModelledMsg)

/-- Models `Trajectory.append_timestep` (trajectory.py, lines 67-73). -/
def Trajectory.append_timestep (tr : Trajectory) (st : Structure) (t : Option ℤ) :
    Except PyErr Trajectory :=
  match SiteCollection.analyse_structure tr.kind tr.sites tr.atoms st with
  | .error e => .error e
  | .ok (sites1, atoms1) =>
    .ok { kind := tr.kind,
          sites := sites1.map fun s => { s with trajectory := s.trajectory ++ [s.contains_atoms] },
          atoms := atoms1.map fun a => { a with trajectory := a.trajectory ++ [a.in_site] },
          timesteps := tr.timesteps ++ [t] }

/-- Models `Trajectory.reset` (trajectory.py, lines 75-80). -/
def Trajectory.reset (tr : Trajectory) : Trajectory :=
  { tr with atoms := tr.atoms.map Atom.reset, sites := tr.sites.map Site.reset, timesteps := [] }

end SiteAnalysis

namespace SiteAnalysis

/-- Convenience constructor for a freshly initialised spherical site. -/
def mkSph (idx : ℕ) (c : Vec3) (r : ℚ) : Site :=
  { index := idx, label := none, contains_atoms := [], trajectory := [], points := [],
    transitions := [], geom := .spherical c r }

/-- Convenience constructor for a freshly initialised Voronoi site. -/
def mkVor (idx : ℕ) (c : Vec3) : Site :=
  { index := idx, label := none, contains_atoms := [], trajectory := [], points := [],
    transitions := [], geom := .voronoi c }

/-- Cubic unit cell with edge length 1. -/
def cubicLattice : Lattice := ⟨1, 1, 1⟩

/-- A freshly initialised atom with index 0. -/
def atom0 : Atom := { index := 0, in_site := none, frac_coords := none, trajectory := [] }

/-- Concrete run for claim C2: one spherical site with index 0 (centre
(1/5, 1/5, 1/5), rcut 1/10); the single atom sits at the site centre in frame 1
and far outside every site in frame 2. -/
def c2Run : Except PyErr Trajectory :=
  match Trajectory.mkNew [mkSph 0 ⟨1/5, 1/5, 1/5⟩ (1/10)] [atom0] with
  | .error e => .error e
  | .ok tr =>
    match tr.append_timestep ⟨[⟨1/5, 1/5, 1/5⟩], cubicLattice⟩ (some 1) with
    | .error e => .error e
    | .ok tr1 => tr1.append_timestep ⟨[⟨7/10, 7/10, 7/10⟩], cubicLattice⟩ (some 2)

/-- Concrete run for claim C3: two overlapping spherical sites stored in
collection order [index 1, index 0].  In frame 1 only the site with index 0
contains the atom; in frame 2 both sites contain it. -/
def c3Run : Except PyErr Trajectory :=
  match Trajectory.mkNew [mkSph 1 ⟨1/2, 1/2, 1/2⟩ (1/5), mkSph 0 ⟨4/5, 1/2, 1/2⟩ (1/5)] [atom0] with
  | .error e => .error e
  | .ok tr =>
    match tr.append_timestep ⟨[⟨9/10, 1/2, 1/2⟩], cubicLattice⟩ (some 1) with
    | .error e => .error e
    | .ok tr1 => tr1.append_timestep ⟨[⟨13/20, 1/2, 1/2⟩], cubicLattice⟩ (some 2)

/-- Concrete run for claim C1: a Voronoi collection whose centres ((1/2,1/2,1/2)
for index 0 and the origin for index 1) are listed in the opposite order of the
frame structure's own site coordinates; the single tracked atom sits at the
origin. -/
def c1Run : Except PyErr Trajectory :=
  match Trajectory.mkNew [mkVor 0 ⟨1/2, 1/2, 1/2⟩, mkVor 1 ⟨0, 0, 0⟩] [atom0] with
  | .error e => .error e
  | .ok tr => tr.append_timestep ⟨[⟨0, 0, 0⟩, ⟨1/2, 1/2, 1/2⟩], cubicLattice⟩ (some 1)

/-- Heterogeneous site list (one Voronoi site, one spherical site) for claim C8. -/
def c8Sites : List Site := [mkVor 0 ⟨0, 0, 0⟩, mkSph 1 ⟨0, 0, 0⟩ 1]

end SiteAnalysis

namespace SiteAnalysis

/-- C10: `Site.reset` empties `contains_atoms`, `trajectory` and `transitions`,
and leaves the `points` list unchanged: for every site, `points` after the call
is identical to its value before. -/
theorem site_reset_preserves_points (s : Site) :
    (s.reset).points = s.points ∧ (s.reset).contains_atoms = [] ∧
      (s.reset).trajectory = [] ∧ (s.reset).transitions = [] :=
  ⟨rfl, rfl, rfl, rfl⟩

/-- C9: `Atom.as_dict` returns a serialisable dict exactly for atoms whose
coordinates are unset; for every atom whose 3-component coordinate array is
assigned it raises the numpy `ValueError` caused by using the array itself in a
boolean test. -/
theorem atom_as_dict_raises_iff_coords_assigned (a : Atom) :
    ((∃ d, a.as_dict = Except.ok d) ↔ a.frac_coords = none) ∧
      ∀ v, a.frac_coords = some v →
        a.as_dict = Except.error (PyErr.valueError truthMsg) := by
  cases h : a.frac_coords <;> simp [Atom.as_dict, h]

/-- Atom with assigned coordinates, for the C9 witness. -/
def c9Atom : Atom :=
  { index := 0, in_site := none, frac_coords := some ⟨1/2, 1/2, 1/2⟩, trajectory := [] }

/-- Witness for C9 at a concrete atom with assigned coordinates. -/
theorem atom_as_dict_raises_witness :
    Atom.as_dict c9Atom = Except.error (PyErr.valueError truthMsg) :=
  (atom_as_dict_raises_iff_coords_assigned c9Atom).2 ⟨1/2, 1/2, 1/2⟩ rfl

/-- C8 (code evaluated at the failing input): constructing a `Trajectory` from a
heterogeneous site list fails, but with `UnboundLocalError` — the local
`site_collection_class` is evaluated without ever having been assigned — rather
than with the intended `ValueError` (the error the spec names
`AmbiguousSiteKind`), whose `raise` statement is unreachable. -/
theorem heterogeneous_sites_raise_unbound_local :
    Trajectory.mkNew c8Sites [atom0] = Except.error PyErr.unboundLocalError ∧
      PyErr.unboundLocalError ≠
        PyErr.valueError "Unable to detect unique SiteCollection class" := by
  constructor
  · rfl
  · decide

/-- C2 (code evaluated at the failing input): after frame 2 the atom matches no
site, yet its `in_site` is still 0 — the site it occupied in frame 1 — because
the guard `if atom.in_site:` treats site index 0 as falsy and the clearing
branch never runs; the containment test of that site fails for the atom's
current coordinates, and the site's occupant list is empty. -/
theorem stale_in_site_zero_after_no_match :
    (c2Run.map fun tr =>
        ((tr.atoms.getD 0 default).in_site, (tr.sites.getD 0 default).contains_atoms))
      = Except.ok (some 0, []) ∧
    (c2Run.map fun tr =>
        (tr.sites.getD 0 default).contains_atom (tr.atoms.getD 0 default) cubicLattice)
      = Except.ok (Except.ok false) := by
  constructor
  · with_unfolding_all rfl
  · with_unfolding_all rfl

/-- C3 (code evaluated at the failing input): in frame 2 the atom's previously
occupied site (index 0, stored at list position 1) still contains it, so per the
claim it must be tested first and retained; instead the code treats the previous
index 0 as "no previous site", scans the list in collection order and assigns
the first containing site, index 1. -/
theorem previous_site_zero_not_retested :
    (c3Run.map fun tr =>
        ((tr.atoms.getD 0 default).in_site,
          (tr.sites.getD 0 default).contains_atoms,
          (tr.sites.getD 1 default).contains_atoms))
      = Except.ok (some 1, [0], []) ∧
    (c3Run.map fun tr =>
        (tr.sites.getD 1 default).contains_atom (tr.atoms.getD 0 default) cubicLattice)
      = Except.ok (Except.ok true) := by
  constructor
  · with_unfolding_all rfl
  · with_unfolding_all rfl

/-- C1 (code evaluated at the failing input): the Voronoi collection assigns the
atom at the origin to the site with index 0, whose centre (1/2,1/2,1/2) is
strictly farther from the atom than the centre of the site with index 1 (the
origin, at distance 0) — because the distance matrix is built from
`structure.sites` instead of the collection's own centres.  Exactly one site
records the atom, but it is not the argmin site. -/
theorem voronoi_assignment_not_nearest_centre :
    (c1Run.map fun tr =>
        ((tr.atoms.getD 0 default).in_site,
          (tr.sites.getD 0 default).contains_atoms,
          (tr.sites.getD 1 default).contains_atoms))
      = Except.ok (some 0, [0], []) ∧
    cubicLattice.getDistanceSq ⟨0, 0, 0⟩ ⟨0, 0, 0⟩ <
      cubicLattice.getDistanceSq ⟨1/2, 1/2, 1/2⟩ ⟨0, 0, 0⟩ := by
  constructor
  · with_unfolding_all rfl
  · with_unfolding_all decide

end SiteAnalysis

namespace SiteAnalysis

/-- Helper: reading position `i` with a default commutes with `List.map` when
the function fixes the default element. -/
theorem getD_map_default {α β : Type} [Inhabited α] [Inhabited β] (f : α → β)
    (hf : f default = default) :
    ∀ (l : List α) (i : ℕ), (l.map f).getD i default = f (l.getD i default)
  | [], _ => by simp [List.getD, hf]
  | _ :: _, 0 => rfl
  | _ :: l, i + 1 => getD_map_default f hf l i

/-- C7: after `Trajectory.reset`, every atom has `in_site = none`, unset
coordinates and an empty trajectory; every site has empty `contains_atoms`,
`trajectory` and `transitions`; the timestep list is empty; and every atom's and
site's index is unchanged.  Positions are read with `getD`, whose default
element is fixed by both reset functions, so the statement needs no bounds. -/
theorem trajectory_reset_state (tr : Trajectory) (i : ℕ) :
    (tr.reset).timesteps = [] ∧
    (tr.reset).atoms.length = tr.atoms.length ∧
    (tr.reset).sites.length = tr.sites.length ∧
    ((tr.reset).atoms.getD i default).in_site = none ∧
    ((tr.reset).atoms.getD i default).frac_coords = none ∧
    ((tr.reset).atoms.getD i default).trajectory = [] ∧
    ((tr.reset).atoms.getD i default).index = (tr.atoms.getD i default).index ∧
    ((tr.reset).sites.getD i default).contains_atoms = [] ∧
    ((tr.reset).sites.getD i default).trajectory = [] ∧
    ((tr.reset).sites.getD i default).transitions = [] ∧
    ((tr.reset).sites.getD i default).index = (tr.sites.getD i default).index := by
  have ha : (tr.reset).atoms.getD i default = Atom.reset (tr.atoms.getD i default) :=
    getD_map_default Atom.reset rfl tr.atoms i
  have hs : (tr.reset).sites.getD i default = Site.reset (tr.sites.getD i default) :=
    getD_map_default Site.reset rfl tr.sites i
  refine ⟨rfl, List.length_map _ _, List.length_map _ _, ?_, ?_, ?_, ?_, ?_, ?_, ?_, ?_⟩
  · rw [ha]; rfl
  · rw [ha]; rfl
  · rw [ha]; rfl
  · rw [ha]; rfl
  · rw [hs]; rfl
  · rw [hs]; rfl
  · rw [hs]; rfl
  · rw [hs]; rfl

/-- Reduction by the nearest integer minimises the squared displacement over all
integer translations along one axis. -/
theorem minImageSq_le (len d : ℚ) (n : ℤ) :
    minImageSq len d ≤ (len * (d + (n : ℚ))) ^ 2 := by
  have h1 : |d - (round d : ℚ)| ≤ |d + (n : ℚ)| := by
    simpa using round_le d (-n)
  have h2 : (d - (round d : ℚ)) ^ 2 ≤ (d + (n : ℚ)) ^ 2 := by
    rw [← sq_abs (d - (round d : ℚ)), ← sq_abs (d + (n : ℚ))]
    exact pow_le_pow_left₀ (abs_nonneg _) h1 2
  calc minImageSq len d = len ^ 2 * (d - (round d : ℚ)) ^ 2 := by rw [minImageSq]; ring
    _ ≤ len ^ 2 * (d + (n : ℚ)) ^ 2 := mul_le_mul_of_nonneg_left h2 (sq_nonneg len)
    _ = (len * (d + (n : ℚ))) ^ 2 := by ring

/-- C5: `SphericalSite.contains_point x lattice` returns true iff the lattice's
periodic minimum-image distance between `x` and the site centre is at most
`rcut`; in square-free-of-roots form, iff `rcut` is nonnegative and some
periodic image of `x` (over all integer translations) lies within squared
cartesian distance `rcut²` of the centre.  The embedded
`Lattice.getDistanceSq` thus realises the minimum over all of `ℤ³`. -/
theorem spherical_contains_point_iff_min_image (centre : Vec3) (rcut : ℚ) (x : Vec3)
    (lat : Lattice) :
    SphericalSite.contains_point centre rcut x lat = true ↔
      (0 ≤ rcut ∧ ∃ n : ℤ × ℤ × ℤ, imageDistSq lat centre x n ≤ rcut ^ 2) := by
  rw [SphericalSite.contains_point, decide_eq_true_eq]
  constructor
  · rintro ⟨hr, hd⟩
    refine ⟨hr, ⟨-round (x.x - centre.x), -round (x.y - centre.y), -round (x.z - centre.z)⟩, ?_⟩
    have he : imageDistSq lat centre x
        ⟨-round (x.x - centre.x), -round (x.y - centre.y), -round (x.z - centre.z)⟩ =
          lat.getDistanceSq centre x := by
      rw [imageDistSq, Lattice.getDistanceSq, minImageSq, minImageSq, minImageSq]
      push_cast
      ring
    rw [he]
    exact hd
  · rintro ⟨hr, n, hn⟩
    refine ⟨hr, le_trans ?_ hn⟩
    rw [Lattice.getDistanceSq, imageDistSq]
    exact add_le_add (add_le_add (minImageSq_le lat.a (x.x - centre.x) n.1)
      (minImageSq_le lat.b (x.y - centre.y) n.2.1)) (minImageSq_le lat.c (x.z - centre.z) n.2.2)

end SiteAnalysis

namespace SiteAnalysis

/-- Models the `vertex_indices` attribute of a `PolyhedralSite` (the class body
lives in polyhedral_site.py, which is not under src/; the neighbour-graph code
in src/ only reads this configured list).  Non-polyhedral variants never reach
this accessor because `PolyhedralSiteCollection.__init__` type-checks its input;
they are given junk value `[]`. -/
def Site.vertex_indices (s : Site) : List ℕ :=
  match s.geom with
  | .polyhedral v => v
  | _ => []

/-- Models `len(set(site_i.vertex_indices) & set(site_j.vertex_indices))`. -/
def sharedVertexCount (s t : Site) : ℕ :=
  (s.vertex_indices.toFinset ∩ t.vertex_indices.toFinset).card

/-- Models the inner loop of `construct_neighbouring_sites` for the site `si` at
list position `i`: every site at another position (`site_i is site_j` compares
object identity, i.e. position) sharing at least 3 configured vertex indices, in
collection order. -/
def neighbourRow (sites : List Site) (i : ℕ) (si : Site) : List Site :=
  (List.range sites.length).filterMap fun j =>
    if j = i then none
    else sites[j]?.bind fun sj => if 3 ≤ sharedVertexCount si sj then some sj else none

/-- Models `PolyhedralSiteCollection.construct_neighbouring_sites`
(polyhedral_site_collection.py, lines 87-114): one dict assignment per site in
list order, keyed by `site_i.index`.  With duplicate site indices a later
assignment overwrites an earlier one, so lookups take the last matching entry. -/
def construct_neighbouring_sites (sites : List Site) : List (ℕ × List Site) :=
  (List.range sites.length).map fun i =>
    ((sites.getD i default).index, neighbourRow sites i (sites.getD i default))

/-- Python dict lookup for a dict built by repeated assignment: the value of the
last entry written for the key (`none` models `KeyError`). -/
def dictGetLast : List (ℕ × List Site) → ℕ → Option (List Site)
  | [], _ => none
  | (k1, v) :: rest, k =>
    match dictGetLast rest k with
    | some w => some w
    | none => if k1 = k then some v else none

/-- Helper: unfolding `dictGetLast` when the tail lookup succeeds. -/
theorem dictGetLast_cons_of_some {tl : List (ℕ × List Site)} {k : ℕ} {w : List Site}
    (htl : dictGetLast tl k = some w) (k1 : ℕ) (v : List Site) :
    dictGetLast ((k1, v) :: tl) k = some w := by
  rw [dictGetLast, htl]

/-- Helper: unfolding `dictGetLast` when the tail lookup fails. -/
theorem dictGetLast_cons_of_none {tl : List (ℕ × List Site)} {k : ℕ}
    (htl : dictGetLast tl k = none) (k1 : ℕ) (v : List Site) :
    dictGetLast ((k1, v) :: tl) k = if k1 = k then some v else none := by
  rw [dictGetLast, htl]

/-- Helper: a successful `dictGetLast` returns a stored entry. -/
theorem dictGetLast_mem {l : List (ℕ × List Site)} {k : ℕ} {w : List Site}
    (h : dictGetLast l k = some w) : (k, w) ∈ l := by
  induction l with
  | nil => simp [dictGetLast] at h
  | cons hd tl ih =>
    obtain ⟨k1, v⟩ := hd
    rcases htl : dictGetLast tl k with _ | w1
    · rw [dictGetLast_cons_of_none htl] at h
      by_cases hk : k1 = k
      · rw [if_pos hk] at h
        injection h with h1
        subst h1
        subst hk
        exact List.mem_cons_self _ _
      · rw [if_neg hk] at h
        exact Option.noConfusion h
    · rw [dictGetLast_cons_of_some htl] at h
      injection h with h1
      subst h1
      exact List.mem_cons_of_mem _ (ih htl)

/-- Helper: a stored key is always found by `dictGetLast`. -/
theorem dictGetLast_isSome_of_mem {l : List (ℕ × List Site)} {k : ℕ} {v : List Site}
    (h : (k, v) ∈ l) : (dictGetLast l k).isSome := by
  induction l with
  | nil => simp at h
  | cons hd tl ih =>
    obtain ⟨k1, v1⟩ := hd
    rcases htl : dictGetLast tl k with _ | w1
    · rcases List.mem_cons.mp h with h1 | h1
      · injection h1 with h2 h3
        subst h2
        rw [dictGetLast_cons_of_none htl, if_pos rfl]
        rfl
      · have := ih h1
        rw [htl] at this
        exact absurd this (by simp)
    · rw [dictGetLast_cons_of_some htl]
      rfl

/-- Helper: when every stored entry for key `k` carries value `v` and one such
entry exists, the lookup returns `v`. -/
theorem dictGetLast_unique {l : List (ℕ × List Site)} {k : ℕ} {v : List Site}
    (hmem : (k, v) ∈ l) (huniq : ∀ kv ∈ l, kv.1 = k → kv.2 = v) :
    dictGetLast l k = some v := by
  rcases hl : dictGetLast l k with _ | w
  · have := dictGetLast_isSome_of_mem hmem
    rw [hl] at this
    exact absurd this (by simp)
  · have hm := dictGetLast_mem hl
    have := huniq (k, w) hm rfl
    simp only at this
    rw [this]

end SiteAnalysis

namespace SiteAnalysis

/-- Helper: with pairwise-distinct site indices, a list position is determined
by the site index stored there. -/
theorem index_inj_of_pairwise {sites : List Site}
    (hdist : sites.Pairwise fun s t => s.index ≠ t.index)
    {i j : ℕ} (hi : i < sites.length) (hj : j < sites.length)
    (h : sites[i].index = sites[j].index) : i = j := by
  rcases Nat.lt_trichotomy i j with hlt | heq | hgt
  · exact absurd h (List.pairwise_iff_get.mp hdist ⟨i, hi⟩ ⟨j, hj⟩ hlt)
  · exact heq
  · exact absurd h.symm (List.pairwise_iff_get.mp hdist ⟨j, hj⟩ ⟨i, hi⟩ hgt)

/-- Helper: with distinct indices, the constructed dict maps the index of the
site at position `i` to exactly that site's neighbour row. -/
theorem construct_neighbouring_sites_lookup {sites : List Site}
    (hdist : sites.Pairwise fun s t => s.index ≠ t.index)
    {i : ℕ} (hi : i < sites.length) :
    dictGetLast (construct_neighbouring_sites sites) sites[i].index =
      some (neighbourRow sites i sites[i]) := by
  apply dictGetLast_unique
  · rw [construct_neighbouring_sites]
    refine List.mem_map.mpr ⟨i, List.mem_range.mpr hi, ?_⟩
    rw [List.getD_eq_getElem _ _ hi]
  · rintro kv hkv hk
    rw [construct_neighbouring_sites] at hkv
    obtain ⟨j, hjr, rfl⟩ := List.mem_map.mp hkv
    have hj : j < sites.length := List.mem_range.mp hjr
    rw [List.getD_eq_getElem _ _ hj] at hk ⊢
    have hji : j = i := index_inj_of_pairwise hdist hj hi hk
    subst hji
    rfl

/-- Helper: membership of the site at position `j` in the neighbour row of the
site at position `i`, for distinct positions with distinct indices. -/
theorem mem_neighbourRow_iff {sites : List Site}
    (hdist : sites.Pairwise fun s t => s.index ≠ t.index)
    {i j : ℕ} (hi : i < sites.length) (hj : j < sites.length) (hij : i ≠ j) :
    sites[j] ∈ neighbourRow sites i sites[i] ↔
      3 ≤ sharedVertexCount sites[i] sites[j] := by
  rw [neighbourRow]
  constructor
  · intro hmem
    obtain ⟨j1, hj1r, hf⟩ := List.mem_filterMap.mp hmem
    have hj1 : j1 < sites.length := List.mem_range.mp hj1r
    by_cases hji : j1 = i
    · rw [if_pos hji] at hf
      exact Option.noConfusion hf
    · rw [if_neg hji, List.getElem?_eq_getElem hj1, Option.some_bind] at hf
      by_cases hs : 3 ≤ sharedVertexCount sites[i] sites[j1]
      · rw [if_pos hs] at hf
        injection hf with hf1
        have hjj : j1 = j := index_inj_of_pairwise hdist hj1 hj (by rw [hf1])
        subst hjj
        rwa [hf1] at hs
      · rw [if_neg hs] at hf
        exact Option.noConfusion hf
  · intro hs
    refine List.mem_filterMap.mpr ⟨j, List.mem_range.mpr hj, ?_⟩
    rw [if_neg (Ne.symm hij), List.getElem?_eq_getElem hj, Option.some_bind, if_pos hs]

/-- C6: in the neighbour graph built by the polyhedral collection at
construction, for every pair of distinct sites A (position `i`) and B (position
`j`) in an identity-unique, all-polyhedral site list, A appears in B's neighbour
list iff B appears in A's, and either holds iff A and B share at least 3
configured vertex indices. -/
theorem neighbour_graph_symmetric_iff_shared (sites : List Site)
    (_hpoly : ∀ s ∈ sites, ∃ v, s.geom = SiteGeometry.polyhedral v)
    (hdist : sites.Pairwise fun s t => s.index ≠ t.index)
    (i j : ℕ) (hi : i < sites.length) (hj : j < sites.length) (hij : i ≠ j) :
    ((sites[j] ∈ (dictGetLast (construct_neighbouring_sites sites) sites[i].index).getD [])
        ↔ 3 ≤ sharedVertexCount sites[i] sites[j]) ∧
      ((sites[j] ∈ (dictGetLast (construct_neighbouring_sites sites) sites[i].index).getD [])
        ↔ sites[i] ∈ (dictGetLast (construct_neighbouring_sites sites) sites[j].index).getD []) := by
  rw [construct_neighbouring_sites_lookup hdist hi, construct_neighbouring_sites_lookup hdist hj]
  simp only [Option.getD_some]
  have h1 := mem_neighbourRow_iff hdist hi hj hij
  have h2 := mem_neighbourRow_iff hdist hj hi (Ne.symm hij)
  have hsym : sharedVertexCount sites[i] sites[j] = sharedVertexCount sites[j] sites[i] := by
    rw [sharedVertexCount, sharedVertexCount, Finset.inter_comm]
  exact ⟨h1, by rw [h1, h2, hsym]⟩

/-- First polyhedral site for the C6 witness: vertex indices 1, 2, 3, 4. -/
def c6SiteA : Site :=
  { index := 0, label := none, contains_atoms := [], trajectory := [], points := [],
    transitions := [], geom := .polyhedral [1, 2, 3, 4] }

/-- Second polyhedral site for the C6 witness: shares vertices 1, 3, 4 with the first. -/
def c6SiteB : Site :=
  { index := 1, label := none, contains_atoms := [], trajectory := [], points := [],
    transitions := [], geom := .polyhedral [3, 4, 1, 9] }

/-- Witness for C6 on a concrete two-site polyhedral collection. -/
theorem neighbour_graph_symmetric_iff_shared_witness :
    (([c6SiteA, c6SiteB][1] ∈
        (dictGetLast (construct_neighbouring_sites [c6SiteA, c6SiteB])
          ([c6SiteA, c6SiteB][0]).index).getD [])
        ↔ 3 ≤ sharedVertexCount [c6SiteA, c6SiteB][0] [c6SiteA, c6SiteB][1]) ∧
      (([c6SiteA, c6SiteB][1] ∈
          (dictGetLast (construct_neighbouring_sites [c6SiteA, c6SiteB])
            ([c6SiteA, c6SiteB][0]).index).getD [])
        ↔ [c6SiteA, c6SiteB][0] ∈
            (dictGetLast (construct_neighbouring_sites [c6SiteA, c6SiteB])
              ([c6SiteA, c6SiteB][1]).index).getD []) :=
  neighbour_graph_symmetric_iff_shared [c6SiteA, c6SiteB]
    (by
      intro s hs
      rcases List.mem_cons.mp hs with rfl | hs1
      · exact ⟨[1, 2, 3, 4], rfl⟩
      · rcases List.mem_cons.mp hs1 with rfl | hs2
        · exact ⟨[3, 4, 1, 9], rfl⟩
        · exact absurd hs2 (List.not_mem_nil _))
    (by decide) 0 1 (by decide) (by decide) (by decide)

end SiteAnalysis

namespace SiteAnalysis

/-- Number of list positions at which an atom's assignment changed from site `A`
to site `B` between two equally-indexed atom lists. -/
def countMoved (A B : ℕ) : List Atom → List Atom → ℕ
  | x :: before, y :: after =>
    (if x.in_site = some A ∧ y.in_site = some B then 1 else 0) + countMoved A B before after
  | _, _ => 0

/-- The `transitions` counter entry, at destination key `B`, of the first site
in the list whose index is `A` (0 when no such site exists). -/
def siteTransCount : List Site → ℕ → ℕ → ℕ
  | [], _, _ => 0
  | s :: rest, A, B => if s.index = A then counterGet s.transitions B else siteTransCount rest A B

/-- Helper: incrementing a counter key raises its value by one. -/
theorem counterGet_counterIncr_self (c : List (ℕ × ℕ)) (k : ℕ) :
    counterGet (counterIncr c k) k = counterGet c k + 1 := by
  induction c with
  | nil => simp [counterIncr, counterGet]
  | cons hd tl ih =>
    obtain ⟨k1, v⟩ := hd
    by_cases h : k1 = k
    · simp [counterIncr, counterGet, h]
    · simp [counterIncr, counterGet, h, ih]

/-- Helper: incrementing a counter key leaves every other key unchanged. -/
theorem counterGet_counterIncr_other (c : List (ℕ × ℕ)) (k k2 : ℕ) (h : k2 ≠ k) :
    counterGet (counterIncr c k) k2 = counterGet c k2 := by
  induction c with
  | nil =>
    simp only [counterIncr, counterGet]
    rw [if_neg (Ne.symm h)]
  | cons hd tl ih =>
    obtain ⟨k1, v⟩ := hd
    by_cases h1 : k1 = k
    · have h3 : k1 ≠ k2 := by rw [h1]; exact Ne.symm h
      simp only [counterIncr, if_pos h1, counterGet]
      rw [if_neg h3, if_neg h3]
    · simp only [counterIncr, if_neg h1, counterGet]
      by_cases h2 : k1 = k2
      · rw [if_pos h2, if_pos h2]
      · rw [if_neg h2, if_neg h2, ih]

/-- Helper: a site-list map that preserves indices preserves the index list. -/
theorem map_index_of_preserve (f : Site → Site) (hidx : ∀ s, (f s).index = s.index)
    (sites : List Site) : (sites.map f).map Site.index = sites.map Site.index := by
  induction sites with
  | nil => rfl
  | cons s rest ih => simp [hidx, ih]

/-- Helper: a site-list map that preserves indices and transitions preserves
every `siteTransCount`. -/
theorem siteTransCount_map_preserve (f : Site → Site)
    (hidx : ∀ s, (f s).index = s.index) (htr : ∀ s, (f s).transitions = s.transitions)
    (sites : List Site) (A B : ℕ) :
    siteTransCount (sites.map f) A B = siteTransCount sites A B := by
  induction sites with
  | nil => rfl
  | cons s rest ih =>
    by_cases hs : s.index = A
    · simp [siteTransCount, hidx, htr, hs]
    · simp [siteTransCount, hidx, htr, hs, ih]

/-- Helper: `tallyTransition` preserves the stored site indices. -/
theorem tallyTransition_map_index (sites : List Site) (prev dest : ℕ) :
    (tallyTransition sites prev dest).map Site.index = sites.map Site.index := by
  induction sites with
  | nil => rfl
  | cons s rest ih => by_cases hs : s.index = prev <;> simp [tallyTransition, hs, ih]

/-- Helper: tallying onto a site with an index other than `A` does not change
site `A`'s counters. -/
theorem siteTransCount_tally_other {sites : List Site} {prev dest A B : ℕ} (h : prev ≠ A) :
    siteTransCount (tallyTransition sites prev dest) A B = siteTransCount sites A B := by
  induction sites with
  | nil => rfl
  | cons s rest ih =>
    by_cases hs : s.index = prev
    · have hA : s.index ≠ A := by rw [hs]; exact h
      simp [tallyTransition, hs, siteTransCount, hA, h]
    · by_cases hA : s.index = A <;>
        simp [tallyTransition, hs, siteTransCount, hA, ih, h, Ne.symm h]

/-- Helper: tallying a transition out of site `A` (present in the list) bumps
its counter exactly at the destination key. -/
theorem siteTransCount_tally_self {sites : List Site} {dest A B : ℕ}
    (hA : A ∈ sites.map Site.index) :
    siteTransCount (tallyTransition sites A dest) A B =
      siteTransCount sites A B + (if dest = B then 1 else 0) := by
  induction sites with
  | nil => simp at hA
  | cons s rest ih =>
    by_cases hs : s.index = A
    · by_cases hd : dest = B
      · subst hd
        simp [tallyTransition, hs, siteTransCount, counterGet_counterIncr_self]
      · simp [tallyTransition, hs, siteTransCount, hd,
          counterGet_counterIncr_other s.transitions dest B (fun he => hd (Eq.symm he))]
    · have hA1 : A ∈ rest.map Site.index := by
        rcases List.mem_map.mp hA with ⟨u, hu, hui⟩
        rcases List.mem_cons.mp hu with rfl | hu1
        · exact absurd hui hs
        · exact List.mem_map.mpr ⟨u, hu1, hui⟩
      simp [tallyTransition, hs, siteTransCount, ih hA1]

/-- Helper: appending an occupant preserves the stored site indices. -/
theorem appendContainsAt_map_index (sites : List Site) (p ai : ℕ) :
    (appendContainsAt sites p ai).map Site.index = sites.map Site.index := by
  induction sites generalizing p with
  | nil => rfl
  | cons s rest ih =>
    cases p with
    | zero => simp [appendContainsAt]
    | succ p1 => simp [appendContainsAt, ih]

/-- Helper: appending an occupant does not touch any transitions counter. -/
theorem siteTransCount_appendContainsAt (sites : List Site) (p ai : ℕ) (A B : ℕ) :
    siteTransCount (appendContainsAt sites p ai) A B = siteTransCount sites A B := by
  induction sites generalizing p with
  | nil => rfl
  | cons s rest ih =>
    cases p with
    | zero => by_cases hs : s.index = A <;> simp [appendContainsAt, siteTransCount, hs]
    | succ p1 => by_cases hs : s.index = A <;> simp [appendContainsAt, siteTransCount, hs, ih]

/-- Helper: clearing occupants preserves the stored site indices. -/
theorem reset_site_occupations_map_index (sites : List Site) :
    (reset_site_occupations sites).map Site.index = sites.map Site.index := by
  rw [reset_site_occupations]
  exact map_index_of_preserve (fun s => { s with contains_atoms := [] }) (fun _ => rfl) sites

/-- Helper: clearing occupants does not touch any transitions counter. -/
theorem siteTransCount_reset (sites : List Site) (A B : ℕ) :
    siteTransCount (reset_site_occupations sites) A B = siteTransCount sites A B := by
  rw [reset_site_occupations]
  exact siteTransCount_map_preserve (fun s => { s with contains_atoms := [] })
    (fun _ => rfl) (fun _ => rfl) sites A B

end SiteAnalysis

namespace SiteAnalysis

/-- Helper: the atom returned by `update_occupation` at a valid position. -/
theorem update_occupation_atom {sites : List Site} {p : ℕ} {target : Site}
    (hp : sites[p]? = some target) (a : Atom) :
    (update_occupation sites p a).2 = { a with in_site := some target.index } := by
  simp only [update_occupation, hp]

/-- Helper: `update_occupation` preserves the stored site indices. -/
theorem update_occupation_map_index (sites : List Site) (p : ℕ) (a : Atom) :
    (update_occupation sites p a).1.map Site.index = sites.map Site.index := by
  rcases hp : sites[p]? with _ | target
  · simp only [update_occupation, hp]
  · simp only [update_occupation, hp]
    rcases hprev : a.prevAssignment with _ | prev
    · simp only [appendContainsAt_map_index]
    · by_cases hpt : prev = target.index
      · simp only [if_pos hpt, appendContainsAt_map_index]
      · simp only [if_neg hpt, appendContainsAt_map_index, tallyTransition_map_index]

/-- Helper: the transitions effect of `update_occupation` at a valid position:
site `A`'s counter at destination `B` grows by one exactly when the atom's
previous-frame assignment was site `A` and the target site's index is `B`. -/
theorem update_occupation_transCount {sites : List Site} {p : ℕ} {target : Site}
    (hp : sites[p]? = some target) (a : Atom) {A B : ℕ} (hAB : A ≠ B)
    (hA : A ∈ sites.map Site.index) :
    siteTransCount (update_occupation sites p a).1 A B =
      siteTransCount sites A B +
        (if a.prevAssignment = some A ∧ target.index = B then 1 else 0) := by
  simp only [update_occupation, hp]
  rcases hprev : a.prevAssignment with _ | prev
  · simp [siteTransCount_appendContainsAt]
  · simp only [siteTransCount_appendContainsAt]
    by_cases hpt : prev = target.index
    · rw [if_pos hpt]
      have hcond : ¬(some prev = some A ∧ target.index = B) := by
        rintro ⟨h1, h2⟩
        injection h1 with h1
        exact hAB (by rw [← h1, hpt, h2])
      rw [if_neg hcond]
      omega
    · rw [if_neg hpt]
      by_cases hprevA : prev = A
      · subst hprevA
        rw [siteTransCount_tally_self hA]
        by_cases htB : target.index = B
        · rw [if_pos htB, if_pos ⟨rfl, htB⟩]
        · rw [if_neg htB, if_neg fun hx => htB hx.2]
      · rw [siteTransCount_tally_other hprevA]
        have hcond : ¬(some prev = some A ∧ target.index = B) := by
          rintro ⟨h1, h2⟩
          injection h1 with h1
          exact hprevA h1
        rw [if_neg hcond]
        omega

/-- Helper: a successful `findIndexedSite` returns a position, counted from the
start value, holding the found site. -/
theorem findIndexedSite_getElem :
    ∀ {sites : List Site} {idx k p : ℕ} {s : Site},
      findIndexedSite sites idx k = some (p, s) → k ≤ p ∧ sites[p - k]? = some s := by
  intro sites
  induction sites with
  | nil =>
    intro idx k p s h
    simp [findIndexedSite] at h
  | cons s0 rest ih =>
    intro idx k p s h
    rw [findIndexedSite] at h
    by_cases hs : s0.index = idx
    · rw [if_pos hs] at h
      simp only [Option.some.injEq, Prod.mk.injEq] at h
      obtain ⟨rfl, rfl⟩ := h
      simp
    · rw [if_neg hs] at h
      obtain ⟨hk, hg⟩ := ih h
      refine ⟨by omega, ?_⟩
      have hpk : p - k = (p - (k + 1)) + 1 := by omega
      rw [hpk, List.getElem?_cons_succ]
      exact hg

/-- Helper: a successful scan returns a position, counted from the start value,
holding some stored site. -/
theorem scanSites_getElem {a : Atom} {lat : Lattice} :
    ∀ {sites : List Site} {k p : ℕ},
      scanSites a lat sites k = Except.ok (some p) →
        k ≤ p ∧ ∃ s, sites[p - k]? = some s := by
  intro sites
  induction sites with
  | nil =>
    intro k p h
    simp [scanSites] at h
  | cons s0 rest ih =>
    intro k p h
    rw [scanSites] at h
    rcases hc : s0.contains_atom a lat with e | b
    · rw [hc] at h
      exact absurd h (by simp)
    · rw [hc] at h
      rcases b with _ | _
      · simp only [Bool.false_eq_true, if_false] at h
        obtain ⟨hk, s1, hg⟩ := ih h
        refine ⟨by omega, s1, ?_⟩
        have hpk : p - k = (p - (k + 1)) + 1 := by omega
        rw [hpk, List.getElem?_cons_succ]
        exact hg
      · simp only [if_true] at h
        injection h with h1
        injection h1 with h2
        subst h2
        simp

end SiteAnalysis

namespace SiteAnalysis

/-- Helper: the transitions effect of the scanning fallback branch: the counter
of site `A` at destination `B` grows exactly when the atom's previous-frame
assignment was `A` and the atom ends up assigned to a site with index `B`. -/
theorem scanAndAssign_transCount {sites : List Site} {a : Atom} {lat : Lattice}
    {sites1 : List Site} {a1 : Atom}
    (h : scanAndAssign sites a lat = Except.ok (sites1, a1))
    {A B : ℕ} (hAB : A ≠ B) (hA : A ∈ sites.map Site.index)
    (hor : a.in_site = a.prevAssignment ∨ a.in_site = none) :
    siteTransCount sites1 A B = siteTransCount sites A B +
        (if a.prevAssignment = some A ∧ a1.in_site = some B then 1 else 0) ∧
      sites1.map Site.index = sites.map Site.index := by
  simp only [scanAndAssign] at h
  rcases hscan : scanSites a lat sites 0 with e | o
  · rw [hscan] at h
    exact absurd h (by simp)
  · rw [hscan] at h
    rcases o with _ | p
    · replace h : Except.ok (sites, a) = Except.ok (sites1, a1) := h
      injection h with h1
      injection h1 with hs1 ha1
      subst hs1
      subst ha1
      have hcond : ¬(a.prevAssignment = some A ∧ a.in_site = some B) := by
        rintro ⟨h1, h2⟩
        rcases hor with hor1 | hor1
        · rw [hor1, h1] at h2
          injection h2 with h2
          exact hAB h2
        · rw [hor1] at h2
          exact Option.noConfusion h2
      rw [if_neg hcond]
      exact ⟨by omega, rfl⟩
    · replace h : Except.ok (update_occupation sites p a) = Except.ok (sites1, a1) := h
      injection h with h1
      have hs1 : sites1 = (update_occupation sites p a).1 := by rw [h1]
      have ha1 : a1 = (update_occupation sites p a).2 := by rw [h1]
      subst hs1
      subst ha1
      obtain ⟨_, s0, hg⟩ := scanSites_getElem hscan
      rw [Nat.sub_zero] at hg
      refine ⟨?_, update_occupation_map_index sites p a⟩
      rw [update_occupation_transCount hg a hAB hA]
      simp only [update_occupation_atom hg a, Option.some.injEq]

/-- Helper: the transitions effect of one iteration of the spherical atom loop:
for an atom whose `in_site` agrees with its history, site `A`'s counter at
destination `B` grows exactly when the atom moves from assignment `A` to a site
with index `B`. -/
theorem assignOneAtom_transCount {sites : List Site} {a : Atom} {lat : Lattice}
    {sites1 : List Site} {a1 : Atom}
    (h : assignOneAtom sites a lat = Except.ok (sites1, a1))
    {A B : ℕ} (hAB : A ≠ B) (hA : A ∈ sites.map Site.index)
    (hinv : a.in_site = a.prevAssignment) :
    siteTransCount sites1 A B = siteTransCount sites A B +
        (if a.in_site = some A ∧ a1.in_site = some B then 1 else 0) ∧
      sites1.map Site.index = sites.map Site.index := by
  simp only [assignOneAtom] at h
  by_cases ht : optIntTruthy a.in_site
  · rw [if_pos ht] at h
    rcases hf : findIndexedSite sites (a.in_site.getD 0) 0 with _ | pp
    · rw [hf] at h
      exact absurd h (by simp)
    · obtain ⟨p, prevSite⟩ := pp
      rw [hf] at h
      replace h : (match prevSite.contains_atom a lat with
          | Except.error e => Except.error e
          | Except.ok true => Except.ok (update_occupation sites p a)
          | Except.ok false => scanAndAssign sites { a with in_site := none } lat)
          = Except.ok (sites1, a1) := h
      rcases hc : prevSite.contains_atom a lat with e | b
      · rw [hc] at h
        exact absurd h (by simp)
      · rw [hc] at h
        rcases b with _ | _
        · replace h : scanAndAssign sites { a with in_site := none } lat
              = Except.ok (sites1, a1) := h
          obtain ⟨e1, m1⟩ := scanAndAssign_transCount h hAB hA (Or.inr rfl)
          refine ⟨?_, m1⟩
          rw [e1, hinv]
          rfl
        · replace h : Except.ok (update_occupation sites p a) = Except.ok (sites1, a1) := h
          injection h with h1
          have hs1 : sites1 = (update_occupation sites p a).1 := by rw [h1]
          have ha1 : a1 = (update_occupation sites p a).2 := by rw [h1]
          subst hs1
          subst ha1
          obtain ⟨_, hg⟩ := findIndexedSite_getElem hf
          rw [Nat.sub_zero] at hg
          refine ⟨?_, update_occupation_map_index sites p a⟩
          rw [update_occupation_transCount hg a hAB hA, hinv]
          simp only [update_occupation_atom hg a, Option.some.injEq]
  · rw [if_neg ht] at h
    obtain ⟨e1, m1⟩ := scanAndAssign_transCount h hAB hA (Or.inl hinv)
    refine ⟨?_, m1⟩
    rw [e1, hinv]

end SiteAnalysis

namespace SiteAnalysis

/-- Helper: the transitions effect of the full spherical atom loop is the sum of
the per-atom moves out of site `A` into site `B`. -/
theorem assignAtomsLoop_transCount {lat : Lattice} :
    ∀ {atoms : List Atom} {sites sites1 : List Site} {atoms1 : List Atom},
      assignAtomsLoop lat sites atoms = Except.ok (sites1, atoms1) →
      (∀ x ∈ atoms, x.in_site = x.prevAssignment) →
      ∀ {A B : ℕ}, A ≠ B → A ∈ sites.map Site.index →
        siteTransCount sites1 A B = siteTransCount sites A B + countMoved A B atoms atoms1 ∧
          sites1.map Site.index = sites.map Site.index := by
  intro atoms
  induction atoms with
  | nil =>
    intro sites sites1 atoms1 h hinv A B hAB hA
    replace h : Except.ok ((sites, []) : List Site × List Atom) = Except.ok (sites1, atoms1) := h
    injection h with h1
    injection h1 with hs1 ha1
    subst hs1
    subst ha1
    refine ⟨?_, rfl⟩
    show siteTransCount sites A B = siteTransCount sites A B + 0
    omega
  | cons a rest ih =>
    intro sites sites1 atoms1 h hinv A B hAB hA
    rw [assignAtomsLoop] at h
    rcases h1 : assignOneAtom sites a lat with e | pr
    · rw [h1] at h
      exact absurd h (by simp)
    · obtain ⟨sitesA, aA⟩ := pr
      rw [h1] at h
      replace h : (match assignAtomsLoop lat sitesA rest with
          | Except.error e => Except.error e
          | Except.ok (sites2, rest1) => Except.ok (sites2, aA :: rest1))
          = Except.ok (sites1, atoms1) := h
      rcases h2 : assignAtomsLoop lat sitesA rest with e | pr2
      · rw [h2] at h
        exact absurd h (by simp)
      · obtain ⟨sitesB, restB⟩ := pr2
        rw [h2] at h
        replace h : Except.ok ((sitesB, aA :: restB) : List Site × List Atom)
            = Except.ok (sites1, atoms1) := h
        injection h with h1x
        injection h1x with hs1 ha1
        subst hs1
        subst ha1
        obtain ⟨e1, m1⟩ := assignOneAtom_transCount h1 hAB hA (hinv a (List.mem_cons_self a rest))
        have hA2 : A ∈ sitesA.map Site.index := by rw [m1]; exact hA
        obtain ⟨e2, m2⟩ := ih h2 (fun x hx => hinv x (List.mem_cons_of_mem a hx)) hAB hA2
        refine ⟨?_, m2.trans m1⟩
        rw [countMoved, e2, e1]
        omega

/-- Helper: the transitions effect of the Voronoi assignment loop. -/
theorem vorAssignLoop_transCount :
    ∀ {pairs : List (Atom × ℕ)} {sites sites1 : List Site} {atoms1 : List Atom},
      vorAssignLoop sites pairs = Except.ok (sites1, atoms1) →
      (∀ x ∈ pairs, (x : Atom × ℕ).1.in_site = x.1.prevAssignment) →
      ∀ {A B : ℕ}, A ≠ B → A ∈ sites.map Site.index →
        siteTransCount sites1 A B =
            siteTransCount sites A B + countMoved A B (pairs.map Prod.fst) atoms1 ∧
          sites1.map Site.index = sites.map Site.index := by
  intro pairs
  induction pairs with
  | nil =>
    intro sites sites1 atoms1 h hinv A B hAB hA
    replace h : Except.ok ((sites, []) : List Site × List Atom) = Except.ok (sites1, atoms1) := h
    injection h with h1
    injection h1 with hs1 ha1
    subst hs1
    subst ha1
    refine ⟨?_, rfl⟩
    show siteTransCount sites A B = siteTransCount sites A B + 0
    omega
  | cons pr rest ih =>
    obtain ⟨a, p⟩ := pr
    intro sites sites1 atoms1 h hinv A B hAB hA
    rw [vorAssignLoop] at h
    rcases hp : sites[p]? with _ | target
    · rw [hp] at h
      exact absurd h (by simp)
    · rw [hp] at h
      replace h : (match vorAssignLoop (update_occupation sites p a).1 rest with
          | Except.error e => Except.error e
          | Except.ok (sites2, rest1) =>
              Except.ok (sites2, (update_occupation sites p a).2 :: rest1))
          = Except.ok (sites1, atoms1) := h
      rcases h2 : vorAssignLoop (update_occupation sites p a).1 rest with e | pr2
      · rw [h2] at h
        exact absurd h (by simp)
      · obtain ⟨sitesB, restB⟩ := pr2
        rw [h2] at h
        replace h : Except.ok ((sitesB, (update_occupation sites p a).2 :: restB) :
            List Site × List Atom) = Except.ok (sites1, atoms1) := h
        injection h with h1x
        injection h1x with hs1 ha1
        subst hs1
        subst ha1
        have e1 := update_occupation_transCount hp a hAB hA
        have m1 := update_occupation_map_index sites p a
        have hA2 : A ∈ (update_occupation sites p a).1.map Site.index := by rw [m1]; exact hA
        obtain ⟨e2, m2⟩ := ih h2 (fun x hx => hinv x (List.mem_cons_of_mem _ hx)) hAB hA2
        refine ⟨?_, m2.trans m1⟩
        have hx := hinv (a, p) (List.mem_cons_self _ _)
        simp only at hx
        have hhd : (if a.in_site = some A ∧ (update_occupation sites p a).2.in_site = some B
              then 1 else 0)
            = (if a.prevAssignment = some A ∧ target.index = B then 1 else 0) := by
          rw [hx]
          simp only [update_occupation_atom hp a, Option.some.injEq]
        rw [List.map_cons, countMoved, e2, e1, hhd]
        omega

/-- Helper: coordinate assignment preserves each atom's `in_site` and history. -/
theorem assignCoordsAll_forall2 {st : Structure} :
    ∀ {atoms atoms1 : List Atom}, assignCoordsAll st atoms = Except.ok atoms1 →
      List.Forall₂ (fun x y => y.in_site = x.in_site ∧ y.trajectory = x.trajectory)
        atoms atoms1 := by
  intro atoms
  induction atoms with
  | nil =>
    intro atoms1 h
    replace h : Except.ok ([] : List Atom) = Except.ok atoms1 := h
    injection h with h1
    rw [← h1]
    exact List.Forall₂.nil
  | cons a rest ih =>
    intro atoms1 h
    rw [assignCoordsAll] at h
    rcases h1 : a.assign_coords st with e | a1
    · rw [h1] at h
      exact absurd h (by simp)
    · rw [h1] at h
      replace h : (match assignCoordsAll st rest with
          | Except.error e => Except.error e
          | Except.ok rest1 => Except.ok (a1 :: rest1)) = Except.ok atoms1 := h
      rcases h2 : assignCoordsAll st rest with e | rest1
      · rw [h2] at h
        exact absurd h (by simp)
      · rw [h2] at h
        replace h : Except.ok (a1 :: rest1) = Except.ok atoms1 := h
        injection h with h1x
        rw [← h1x]
        refine List.Forall₂.cons ?_ (ih h2)
        simp only [Atom.assign_coords] at h1
        rcases hg : st.frac_coords[a.index]? with _ | v
        · rw [hg] at h1
          exact absurd h1 (by simp)
        · rw [hg] at h1
          replace h1 : Except.ok ({ a with frac_coords := some v } : Atom) = Except.ok a1 := h1
          injection h1 with h1y
          rw [← h1y]
          exact ⟨rfl, rfl⟩

/-- Helper: `countMoved` reads only the `in_site` fields of the left list. -/
theorem countMoved_congr_left {A B : ℕ} :
    ∀ {l l1 : List Atom},
      List.Forall₂ (fun x y => y.in_site = x.in_site ∧ y.trajectory = x.trajectory) l l1 →
      ∀ (r : List Atom), countMoved A B l1 r = countMoved A B l r := by
  intro l l1 hf
  induction hf with
  | nil => intro r; rfl
  | @cons x y l0 l2 hxy hrest ih =>
    intro r
    rcases r with _ | ⟨y0, r1⟩
    · rfl
    · rw [countMoved, countMoved, hxy.1, ih r1]

/-- Helper: the history invariant survives coordinate assignment. -/
theorem hinv_of_forall2 {l l1 : List Atom}
    (hf : List.Forall₂ (fun x y => y.in_site = x.in_site ∧ y.trajectory = x.trajectory) l l1)
    (h : ∀ x ∈ l, x.in_site = x.prevAssignment) :
    ∀ y ∈ l1, y.in_site = y.prevAssignment := by
  induction hf with
  | nil => intro y hy; exact absurd hy (List.not_mem_nil y)
  | @cons x y l0 l2 hxy hrest ih =>
    intro y1 hy1
    rcases List.mem_cons.mp hy1 with rfl | hy2
    · have hx := h x (List.mem_cons_self x l0)
      rw [hxy.1, hx, Atom.prevAssignment, Atom.prevAssignment, hxy.2]
    · exact ih (fun x1 hx1 => h x1 (List.mem_cons_of_mem x hx1)) y1 hy2

/-- Helper: `countMoved` reads only the `in_site` fields of the right list. -/
theorem countMoved_map_right {A B : ℕ} (g : Atom → Atom)
    (hg : ∀ x, (g x).in_site = x.in_site) :
    ∀ (l r : List Atom), countMoved A B l (r.map g) = countMoved A B l r := by
  intro l
  induction l with
  | nil => intro r; rfl
  | cons x l1 ih =>
    intro r
    rcases r with _ | ⟨y, r1⟩
    · rfl
    · rw [List.map_cons, countMoved, countMoved, hg y, ih r1]

/-- Helper: `getAtomCoords` yields one coordinate per atom. -/
theorem getAtomCoords_length :
    ∀ {atoms : List Atom} {xs : List Vec3}, getAtomCoords atoms = Except.ok xs →
      xs.length = atoms.length := by
  intro atoms
  induction atoms with
  | nil =>
    intro xs h
    replace h : Except.ok ([] : List Vec3) = Except.ok xs := h
    injection h with h1
    rw [← h1]
    rfl
  | cons a rest ih =>
    intro xs h
    rw [getAtomCoords] at h
    rcases h1 : a.get_frac_coords with e | xc
    · rw [h1] at h
      exact absurd h (by simp)
    · rw [h1] at h
      replace h : (match getAtomCoords rest with
          | Except.error e => Except.error e
          | Except.ok xs1 => Except.ok (xc :: xs1)) = Except.ok xs := h
      rcases h2 : getAtomCoords rest with e | xs1
      · rw [h2] at h
        exact absurd h (by simp)
      · rw [h2] at h
        replace h : Except.ok (xc :: xs1) = Except.ok xs := h
        injection h with h1x
        rw [← h1x, List.length_cons, ih h2, List.length_cons]

end SiteAnalysis

namespace SiteAnalysis

/-- Helper: the transitions effect of the spherical collection assignment pass. -/
theorem spherical_assign_transCount {sites : List Site} {atoms : List Atom} {st : Structure}
    {sites1 : List Site} {atoms1 : List Atom}
    (h : SphericalSiteCollection.assign_site_occupations sites atoms st
        = Except.ok (sites1, atoms1))
    (hinv : ∀ x ∈ atoms, x.in_site = x.prevAssignment)
    {A B : ℕ} (hAB : A ≠ B) (hA : A ∈ sites.map Site.index) :
    siteTransCount sites1 A B = siteTransCount sites A B + countMoved A B atoms atoms1 := by
  replace h : assignAtomsLoop st.lattice (reset_site_occupations sites) atoms
      = Except.ok (sites1, atoms1) := h
  have hA0 : A ∈ (reset_site_occupations sites).map Site.index := by
    rw [reset_site_occupations_map_index]
    exact hA
  obtain ⟨e1, _⟩ := assignAtomsLoop_transCount h hinv hAB hA0
  rw [e1, siteTransCount_reset]

/-- Helper: the transitions effect of the Voronoi collection assignment pass. -/
theorem voronoi_assign_transCount {sites : List Site} {atoms : List Atom} {st : Structure}
    {sites1 : List Site} {atoms1 : List Atom}
    (h : VoronoiSiteCollection.assign_site_occupations sites atoms st
        = Except.ok (sites1, atoms1))
    (hinv : ∀ x ∈ atoms, x.in_site = x.prevAssignment)
    {A B : ℕ} (hAB : A ≠ B) (hA : A ∈ sites.map Site.index) :
    siteTransCount sites1 A B = siteTransCount sites A B + countMoved A B atoms atoms1 := by
  simp only [VoronoiSiteCollection.assign_site_occupations] at h
  rcases hg : getAtomCoords atoms with e | xs
  · rw [hg] at h
    exact absurd h (by simp)
  · rw [hg] at h
    replace h : vorAssignLoop (reset_site_occupations sites)
        (atoms.zip (xs.map fun ac =>
          argmin (st.frac_coords.map fun sc => st.lattice.getDistanceSq sc ac)))
        = Except.ok (sites1, atoms1) := h
    have hlen : atoms.length ≤ (xs.map fun ac =>
        argmin (st.frac_coords.map fun sc => st.lattice.getDistanceSq sc ac)).length := by
      rw [List.length_map, getAtomCoords_length hg]
    have hA0 : A ∈ (reset_site_occupations sites).map Site.index := by
      rw [reset_site_occupations_map_index]
      exact hA
    have hinvz : ∀ x ∈ atoms.zip (xs.map fun ac =>
        argmin (st.frac_coords.map fun sc => st.lattice.getDistanceSq sc ac)),
        (x : Atom × ℕ).1.in_site = x.1.prevAssignment := by
      rintro ⟨x1, x2⟩ hx
      exact hinv x1 (List.of_mem_zip hx).1
    obtain ⟨e1, _⟩ := vorAssignLoop_transCount h hinvz hAB hA0
    rw [e1, siteTransCount_reset, List.map_fst_zip _ _ hlen]

/-- C4 (modelled from the spec where site_collection.py is missing): over any
single successful `Trajectory.append_timestep` on a spherical or Voronoi
collection whose site `A` exists and whose atoms' `in_site` agrees with the last
entry of their history (the state every `append_timestep` leaves behind), site
`A`'s transitions counter for a destination site `B ≠ A` grows by exactly the
number of atoms whose assignment changed from `A` to `B` during the call: by one
for every such atom, and not at all on account of atoms whose assignment is
unchanged. -/
theorem append_timestep_transition_counts
    (tr : Trajectory) (st : Structure) (t : Option ℤ) (tr2 : Trajectory)
    (hkind : tr.kind ≠ CollectionKind.polyhedral)
    (hinv : ∀ x ∈ tr.atoms, x.in_site = x.prevAssignment)
    (hok : tr.append_timestep st t = Except.ok tr2)
    (A B : ℕ) (hAB : A ≠ B) (hA : A ∈ tr.sites.map Site.index) :
    siteTransCount tr2.sites A B =
      siteTransCount tr.sites A B + countMoved A B tr.atoms tr2.atoms := by
  simp only [Trajectory.append_timestep] at hok
  rcases han : SiteCollection.analyse_structure tr.kind tr.sites tr.atoms st with e | pr
  · rw [han] at hok
    exact absurd hok (by simp)
  · obtain ⟨sitesX, atomsX⟩ := pr
    rw [han] at hok
    replace hok : Except.ok (Trajectory.mk tr.kind
        (sitesX.map fun s => { s with trajectory := s.trajectory ++ [s.contains_atoms] })
        (atomsX.map fun a => { a with trajectory := a.trajectory ++ [a.in_site] })
        (tr.timesteps ++ [t])) = Except.ok tr2 := hok
    injection hok with h1
    rw [← h1]
    show siteTransCount
        (sitesX.map fun s => { s with trajectory := s.trajectory ++ [s.contains_atoms] }) A B
      = siteTransCount tr.sites A B +
          countMoved A B tr.atoms
            (atomsX.map fun a => { a with trajectory := a.trajectory ++ [a.in_site] })
    rw [siteTransCount_map_preserve
        (fun s => { s with trajectory := s.trajectory ++ [s.contains_atoms] })
        (fun _ => rfl) (fun _ => rfl) sitesX A B,
      countMoved_map_right (fun a => { a with trajectory := a.trajectory ++ [a.in_site] })
        (fun _ => rfl) tr.atoms atomsX]
    rcases hk : tr.kind with _ | _ | _
    · exact absurd hk hkind
    · rw [hk] at han
      replace han : VoronoiSiteCollection.analyse_structure tr.sites tr.atoms st
          = Except.ok (sitesX, atomsX) := han
      simp only [VoronoiSiteCollection.analyse_structure] at han
      rcases hca : assignCoordsAll st tr.atoms with e | atomsY
      · rw [hca] at han
        exact absurd han (by simp)
      · rw [hca] at han
        replace han : VoronoiSiteCollection.assign_site_occupations tr.sites atomsY st
            = Except.ok (sitesX, atomsX) := han
        have hf2 := assignCoordsAll_forall2 hca
        have e1 := voronoi_assign_transCount han (hinv_of_forall2 hf2 hinv) hAB hA
        rw [e1, countMoved_congr_left hf2]
    · rw [hk] at han
      replace han : SphericalSiteCollection.analyse_structure tr.sites tr.atoms st
          = Except.ok (sitesX, atomsX) := han
      simp only [SphericalSiteCollection.analyse_structure] at han
      rcases hca : assignCoordsAll st tr.atoms with e | atomsY
      · rw [hca] at han
        exact absurd han (by simp)
      · rw [hca] at han
        replace han : SphericalSiteCollection.assign_site_occupations tr.sites atomsY st
            = Except.ok (sitesX, atomsX) := han
        have hf2 := assignCoordsAll_forall2 hca
        have e1 := spherical_assign_transCount han (hinv_of_forall2 hf2 hinv) hAB hA
        rw [e1, countMoved_congr_left hf2]

end SiteAnalysis

namespace SiteAnalysis

/-- `append_timestep` itself establishes the history invariant assumed by the
transition-count theorem: after every successful call, each atom's `in_site`
equals the last entry of its trajectory (and a fresh trajectory satisfies it
trivially), so the hypothesis holds at every frame boundary. -/
theorem append_timestep_history_inv (tr : Trajectory) (st : Structure) (t : Option ℤ)
    (tr2 : Trajectory) (hok : tr.append_timestep st t = Except.ok tr2) :
    ∀ x ∈ tr2.atoms, x.in_site = x.prevAssignment := by
  simp only [Trajectory.append_timestep] at hok
  rcases han : SiteCollection.analyse_structure tr.kind tr.sites tr.atoms st with e | pr
  · rw [han] at hok
    exact absurd hok (by simp)
  · obtain ⟨sitesX, atomsX⟩ := pr
    rw [han] at hok
    replace hok : Except.ok (Trajectory.mk tr.kind
        (sitesX.map fun s => { s with trajectory := s.trajectory ++ [s.contains_atoms] })
        (atomsX.map fun a => { a with trajectory := a.trajectory ++ [a.in_site] })
        (tr.timesteps ++ [t])) = Except.ok tr2 := hok
    injection hok with h1
    rw [← h1]
    intro y hy
    obtain ⟨x, _, rfl⟩ := List.mem_map.mp hy
    show x.in_site = Atom.prevAssignment { x with trajectory := x.trajectory ++ [x.in_site] }
    rw [Atom.prevAssignment]
    simp [List.getLast?_concat]

/-- Hand-written pre-state for the C4 witness: one atom assigned to site 1, as a
previous frame leaves it (its trajectory ends with its assignment). -/
def c4Tr1 : Trajectory :=
  { kind := .spherical,
    sites := [mkSph 1 ⟨1/5, 1/5, 1/5⟩ (1/10), mkSph 2 ⟨3/5, 3/5, 3/5⟩ (1/10)],
    atoms := [{ index := 0, in_site := some 1, frac_coords := some ⟨1/5, 1/5, 1/5⟩,
                trajectory := [some 1] }],
    timesteps := [some 1] }

/-- Frame for the C4 witness: the atom has moved to the centre of site 2. -/
def c4Frame2 : Structure := ⟨[⟨3/5, 3/5, 3/5⟩], cubicLattice⟩

/-- Post-state of the C4 witness append: site 1 has tallied one transition to
site 2 and the atom is recorded in site 2. -/
def c4Tr2 : Trajectory :=
  { kind := .spherical,
    sites := [{ index := 1, label := none, contains_atoms := [], trajectory := [[]],
                points := [], transitions := [(2, 1)],
                geom := .spherical ⟨1/5, 1/5, 1/5⟩ (1/10) },
              { index := 2, label := none, contains_atoms := [0], trajectory := [[0]],
                points := [], transitions := [],
                geom := .spherical ⟨3/5, 3/5, 3/5⟩ (1/10) }],
    atoms := [{ index := 0, in_site := some 2, frac_coords := some ⟨3/5, 3/5, 3/5⟩,
                trajectory := [some 1, some 2] }],
    timesteps := [some 1, some 2] }

/-- Witness for C4 on a concrete single append in which the atom moves from
site 1 to site 2. -/
theorem append_timestep_transition_counts_witness :
    siteTransCount c4Tr2.sites 1 2 =
      siteTransCount c4Tr1.sites 1 2 + countMoved 1 2 c4Tr1.atoms c4Tr2.atoms :=
  append_timestep_transition_counts c4Tr1 c4Frame2 (some 2) c4Tr2
    (by decide)
    (by with_unfolding_all decide)
    (by with_unfolding_all rfl)
    1 2 (by decide) (by with_unfolding_all decide)

end SiteAnalysis
